import Mathlib

/-!
Verification of the snowflake identifier generator (src/snowflake.go).

The Go source is shallowly embedded below.  Machine `int64` values are
modelled as `Int`; the spec declares the 41-bit timestamp overflow an
accepted lifetime bound, so no wrap-around is modelled.  The system clock
is modelled as a stream `clock : Nat → Int` of millisecond readings
together with a cursor counting how many readings have been consumed; the
busy-wait loop `tilNextMillis` is given explicit fuel, with `none`
modelling the divergence that the Go loop exhibits when the clock never
advances.  The mutex is not modelled: each call to `Next` is one atomic
step of the state machine, matching the serialized execution the lock
enforces.
-/

namespace Snowflake

/-- Epoch constant `twepoch` from the source: 1546272000000 (2019-01-01). -/
def twepoch : Int := 1546272000000

/-- Bits reserved for the worker id (`workerIDBits`). -/
def workerIDBits : Nat := 5

/-- Bits reserved for the datacenter id (`datacenterIDBits`). -/
def datacenterIDBits : Nat := 5

/-- Largest worker id, computed as in the source: `-1 ^ (-1 << workerIDBits)`. -/
def maxWorkerID : Int := Int.xor (-1) ((-1) <<< (workerIDBits : Int))

/-- Largest datacenter id, computed as in the source. -/
def maxDatacenterID : Int := Int.xor (-1) ((-1) <<< (datacenterIDBits : Int))

/-- Bits reserved for the per-millisecond sequence (`sequenceBits`). -/
def sequenceBits : Nat := 12

/-- Left shift applied to the worker id (`workerIDShift = sequenceBits`). -/
def workerIDShift : Nat := sequenceBits

/-- Left shift applied to the datacenter id (`datacenterIDShift`). -/
def datacenterIDShift : Nat := sequenceBits + workerIDBits

/-- Left shift applied to the timestamp delta (`timestampLeftShift`). -/
def timestampLeftShift : Nat := sequenceBits + workerIDBits + datacenterIDBits

/-- Sequence mask, computed as in the source: `-1 ^ (-1 << sequenceBits)`. -/
def sequenceMask : Int := Int.xor (-1) ((-1) <<< (sequenceBits : Int))

/-- The `worker` struct of the source (the mutex field is not modelled). -/
structure Worker where
  workerID : Int
  datacenterID : Int
  sequence : Int
  lastTimestamp : Int
deriving DecidableEq, Repr

/-- The error produced by `worker.Next` when the clock moved backwards; the
payload is the reported magnitude `lastTimestamp - timestamp`. -/
inductive NextError where
  | clockMovedBackwards (millis : Int)
deriving DecidableEq, Repr

/-- Constructor `NewWorker`.  The source takes `uint8` arguments, modelled as
`Nat`; `log.Fatalf` (process termination, no usable worker) is modelled as
`none`.  The remaining fields of the returned struct are the Go zero values. -/
def NewWorker (workerID : Nat) (datacenterID : Nat) : Option Worker :=
  if (workerID : Int) > maxWorkerID then none
  else if (datacenterID : Int) > maxDatacenterID then none
  else some { workerID := (workerID : Int), datacenterID := (datacenterID : Int),
              sequence := 0, lastTimestamp := 0 }

/-- The busy-wait loop `tilNextMillis`: repeatedly sample the clock until the
sample exceeds `lastTimestamp`.  Returns the adopted sample and the new clock
cursor, or `none` when the fuel runs out (the Go loop would still be
spinning). -/
def tilNextMillis (clock : Nat → Int) (lastTimestamp : Int) : Nat → Nat → Option (Int × Nat)
  | _, 0 => none
  | i, fuel + 1 =>
    let timestamp := clock i
    if timestamp ≤ lastTimestamp then tilNextMillis clock lastTimestamp (i + 1) fuel
    else some (timestamp, i + 1)

/-- Identifier composition from lines 84-87 of the source:
`((timestamp - twepoch) << timestampLeftShift) | (datacenterID << datacenterIDShift) | (workerID << workerIDShift) | sequence`. -/
def composeId (timestamp datacenterID workerID sequence : Int) : Int :=
  Int.lor
    (Int.lor
      (Int.lor ((timestamp - twepoch) <<< (timestampLeftShift : Int))
        (datacenterID <<< (datacenterIDShift : Int)))
      (workerID <<< (workerIDShift : Int)))
    sequence

/-- One call to `worker.Next`.  The call samples the clock at cursor `i`;
the result is the returned `(id, error)` pair together with the worker state
after the call and the advanced clock cursor.  `none` models divergence
inside `tilNextMillis`. -/
def Next (clock : Nat → Int) (fuel : Nat) (w : Worker) (i : Nat) :
    Option (Except NextError Int × Worker × Nat) :=
  let timestamp := clock i
  if timestamp < w.lastTimestamp then
    some (Except.error (NextError.clockMovedBackwards (w.lastTimestamp - timestamp)), w, i + 1)
  else if timestamp = w.lastTimestamp then
    let sequence := Int.land (w.sequence + 1) sequenceMask
    if sequence = 0 then
      match tilNextMillis clock w.lastTimestamp (i + 1) fuel with
      | none => none
      | some (t2, i2) =>
        let w2 : Worker := { w with sequence := sequence, lastTimestamp := t2 }
        some (Except.ok (composeId t2 w2.datacenterID w2.workerID w2.sequence), w2, i2)
    else
      let w2 : Worker := { w with sequence := sequence, lastTimestamp := timestamp }
      some (Except.ok (composeId timestamp w2.datacenterID w2.workerID w2.sequence), w2, i + 1)
  else
    let w2 : Worker := { w with sequence := 0, lastTimestamp := timestamp }
    some (Except.ok (composeId timestamp w2.datacenterID w2.workerID w2.sequence), w2, i + 1)

/-- Run `n` sequential calls to `Next`, collecting each returned identifier
together with the worker state right after that call.  `none` as soon as one
call returns an error or diverges. -/
def run (clock : Nat → Int) (fuel : Nat) : Nat → Worker → Nat → Option (List (Int × Worker) × Worker × Nat)
  | 0, w, i => some ([], w, i)
  | n + 1, w, i =>
    match Next clock fuel w i with
    | some (Except.ok id, w1, i1) =>
      match run clock fuel n w1 i1 with
      | some (out, w2, i2) => some ((id, w1) :: out, w2, i2)
      | none => none
    | _ => none

/-- Decoder for the worker id field (bits 12-16), from the inverse shifts
described by the spec. -/
def decodeWorkerID (id : Int) : Int :=
  Int.land (id >>> (workerIDShift : Int)) maxWorkerID

/-- Decoder for the datacenter id field (bits 17-21). -/
def decodeDatacenterID (id : Int) : Int :=
  Int.land (id >>> (datacenterIDShift : Int)) maxDatacenterID

/-- Decoder for the timestamp-delta field (bits 22 and up). -/
def decodeTimestampDelta (id : Int) : Int :=
  id >>> (timestampLeftShift : Int)

/-- Decoder for the sequence field (bits 0-11). -/
def decodeSequence (id : Int) : Int :=
  Int.land id sequenceMask

/-- Range invariant on a worker state: the identity fields fit in 5 bits and
the sequence fits in 12 bits.  It holds for every constructed worker and is
preserved by `Next`. -/
def WorkerInv (w : Worker) : Prop :=
  0 ≤ w.workerID ∧ w.workerID ≤ 31 ∧ 0 ≤ w.datacenterID ∧ w.datacenterID ≤ 31 ∧
    0 ≤ w.sequence ∧ w.sequence ≤ 4095

instance (w : Worker) : Decidable (WorkerInv w) := by
  unfold WorkerInv; infer_instance

instance : DecidableEq (Except NextError Int) := fun a b =>
  match a, b with
  | .ok x, .ok y =>
    if h : x = y then isTrue (by rw [h]) else isFalse (fun hc => h (by cases hc; rfl))
  | .error x, .error y =>
    if h : x = y then isTrue (by rw [h]) else isFalse (fun hc => h (by cases hc; rfl))
  | .ok _, .error _ => isFalse (fun hc => by cases hc)
  | .error _, .ok _ => isFalse (fun hc => by cases hc)

theorem maxWorkerID_eq : maxWorkerID = 31 := by decide

theorem maxDatacenterID_eq : maxDatacenterID = 31 := by decide

theorem sequenceMask_eq : sequenceMask = 4095 := by decide

theorem workerIDShift_eq : workerIDShift = 12 := rfl

theorem datacenterIDShift_eq : datacenterIDShift = 17 := rfl

theorem timestampLeftShift_eq : timestampLeftShift = 22 := rfl

theorem int_lor_natCast (a b : Nat) : Int.lor (a : Int) (b : Int) = ((a ||| b : Nat) : Int) := rfl

theorem int_lor_negSucc_natCast (m n : Nat) :
    Int.lor (Int.negSucc m) (n : Int) = Int.negSucc (Nat.ldiff m n) := rfl

theorem int_land_natCast (a b : Nat) : Int.land (a : Int) (b : Int) = ((a &&& b : Nat) : Int) := rfl

theorem int_land_negSucc_natCast (m n : Nat) :
    Int.land (Int.negSucc m) (n : Int) = ((Nat.ldiff n m : Nat) : Int) := rfl

theorem nat_lor_mul_pow_add (a b k : Nat) (hb : b < 2 ^ k) :
    (2 ^ k * a) ||| b = 2 ^ k * a + b := by
  apply Nat.eq_of_testBit_eq
  intro i
  have hz : (0 : Nat) < 2 ^ k := Nat.two_pow_pos k
  have hL := Nat.testBit_mul_pow_two_add a hz i
  rw [Nat.add_zero] at hL
  have hR := Nat.testBit_mul_pow_two_add a hb i
  rw [Nat.testBit_or, hL, hR]
  by_cases h : i < k
  · simp [h]
  · have hbi : b.testBit i = false :=
      Nat.testBit_lt_two_pow
        (lt_of_lt_of_le hb (Nat.pow_le_pow_right (by norm_num) (Nat.le_of_not_lt h)))
    simp [h, hbi]

theorem nat_ldiff_mul_pow_pred (a b k : Nat) (hb : b < 2 ^ k) :
    Nat.ldiff (2 ^ k * a + (2 ^ k - 1)) b = 2 ^ k * a + (2 ^ k - 1) - b := by
  apply Nat.eq_of_testBit_eq
  intro i
  have h1 : 2 ^ k - 1 < 2 ^ k := by have := Nat.two_pow_pos k; omega
  have hb2 : 2 ^ k - 1 - b < 2 ^ k := by omega
  have hEq : 2 ^ k * a + (2 ^ k - 1) - b = 2 ^ k * a + (2 ^ k - 1 - b) := by omega
  have hL := Nat.testBit_mul_pow_two_add a h1 i
  have hR := Nat.testBit_mul_pow_two_add a hb2 i
  rw [Nat.testBit_ldiff, hL, hEq, hR]
  by_cases h : i < k
  · rw [if_pos h, if_pos h]
    have he : 2 ^ k - 1 - b = 2 ^ k - (b + 1) := by omega
    rw [he, Nat.testBit_two_pow_sub_succ hb i, Nat.testBit_two_pow_sub_one]
  · rw [if_neg h, if_neg h]
    have hbi : b.testBit i = false :=
      Nat.testBit_lt_two_pow
        (lt_of_lt_of_le hb (Nat.pow_le_pow_right (by norm_num) (Nat.le_of_not_lt h)))
    simp [hbi]

theorem nat_ldiff_mask (m k : Nat) :
    Nat.ldiff (2 ^ k - 1) m = 2 ^ k - 1 - m % 2 ^ k := by
  apply Nat.eq_of_testBit_eq
  intro i
  have hr : m % 2 ^ k < 2 ^ k := Nat.mod_lt _ (Nat.two_pow_pos k)
  have he : 2 ^ k - 1 - m % 2 ^ k = 2 ^ k - (m % 2 ^ k + 1) := by omega
  rw [he, Nat.testBit_two_pow_sub_succ hr i, Nat.testBit_ldiff, Nat.testBit_two_pow_sub_one]
  by_cases h : i < k <;> simp [h, Nat.testBit_mod_two_pow]

theorem int_lor_add_of_lt (a b P : Int) (k : Nat) (hP : P = (2 : Int) ^ k)
    (hb0 : 0 ≤ b) (hb : b < P) :
    Int.lor (a * P) b = a * P + b := by
  subst hP
  obtain ⟨bn, rfl⟩ : ∃ bn : Nat, b = (bn : Int) := ⟨b.toNat, (Int.toNat_of_nonneg hb0).symm⟩
  have hbn : bn < 2 ^ k := by exact_mod_cast hb
  rcases a with m | m
  · rw [Int.ofNat_eq_natCast]
    have h1 : (m : Int) * (2 : Int) ^ k = ((2 ^ k * m : Nat) : Int) := by push_cast; ring
    rw [h1, int_lor_natCast, nat_lor_mul_pow_add m bn k hbn]
    push_cast
    ring
  · have h1e : (1 : Nat) ≤ 2 ^ k := Nat.one_le_two_pow
    have h1 : Int.negSucc m * (2 : Int) ^ k = Int.negSucc (2 ^ k * m + (2 ^ k - 1)) := by
      rw [Int.negSucc_eq, Int.negSucc_eq]
      push_cast [h1e]
      ring
    rw [h1, int_lor_negSucc_natCast, nat_ldiff_mul_pow_pred m bn k hbn]
    rw [Int.negSucc_eq, Int.negSucc_eq]
    have hle : bn ≤ 2 ^ k * m + (2 ^ k - 1) := by omega
    push_cast [h1e, hle]
    ring

theorem int_negSucc_decomp (m k : Nat) :
    -((m : Int) + 1) =
      ((2 ^ k - 1 - m % 2 ^ k : Nat) : Int) + (2 : Int) ^ k * (-(((m / 2 ^ k : Nat)) : Int) - 1) := by
  have hdm : 2 ^ k * (m / 2 ^ k) + m % 2 ^ k = m := Nat.div_add_mod m (2 ^ k)
  have hdm2 : ((2 : Int) ^ k) * ((m / 2 ^ k : Nat) : Int) + ((m % 2 ^ k : Nat) : Int) = (m : Int) := by
    exact_mod_cast hdm
  have h1e : (1 : Nat) ≤ 2 ^ k := Nat.one_le_two_pow
  have hr : m % 2 ^ k < 2 ^ k := Nat.mod_lt _ (Nat.two_pow_pos k)
  have hcast : ((2 ^ k - 1 - m % 2 ^ k : Nat) : Int) =
      (2 : Int) ^ k - 1 - ((m % 2 ^ k : Nat) : Int) := by
    have hle : m % 2 ^ k ≤ 2 ^ k - 1 := by omega
    push_cast [hle, h1e]
    ring
  rw [hcast]
  linarith [hdm2]

theorem int_land_mask (q : Int) (k : Nat) :
    Int.land q ((2 : Int) ^ k - 1) = q % (2 : Int) ^ k := by
  have h1e : (1 : Nat) ≤ 2 ^ k := Nat.one_le_two_pow
  have hc : ((2 : Int) ^ k - 1) = ((2 ^ k - 1 : Nat) : Int) := by push_cast [h1e]; ring
  rw [hc]
  rcases q with m | m
  · rw [Int.ofNat_eq_natCast, int_land_natCast, Nat.and_pow_two_sub_one_eq_mod]
    push_cast
    rfl
  · rw [int_land_negSucc_natCast, nat_ldiff_mask, Int.negSucc_eq, int_negSucc_decomp m k]
    rw [Int.add_mul_emod_self_left]
    rw [Int.emod_eq_of_lt (by positivity) ?hlt]
    case hlt =>
      have hr : m % 2 ^ k < 2 ^ k := Nat.mod_lt _ (Nat.two_pow_pos k)
      have : (2 ^ k - 1 - m % 2 ^ k : Nat) < 2 ^ k := by omega
      exact_mod_cast this

theorem int_shiftRight_eq_div (q : Int) (k : Nat) :
    q >>> (k : Int) = q / (2 : Int) ^ k := by
  rcases q with m | m
  · rw [Int.ofNat_eq_natCast, Int.shiftRight_coe_nat, Nat.shiftRight_eq_div_pow]
    push_cast
    rfl
  · rw [Int.shiftRight_negSucc, Nat.shiftRight_eq_div_pow]
    rw [Int.negSucc_eq, Int.negSucc_eq, int_negSucc_decomp m k]
    rw [Int.add_mul_ediv_left _ _ (by positivity : ((2 : Int) ^ k) ≠ 0)]
    rw [Int.ediv_eq_zero_of_lt (by positivity) ?hlt]
    · omega
    case hlt =>
      have hr : m % 2 ^ k < 2 ^ k := Nat.mod_lt _ (Nat.two_pow_pos k)
      have : (2 ^ k - 1 - m % 2 ^ k : Nat) < 2 ^ k := by omega
      exact_mod_cast this

theorem composeId_eq (t dc wk s : Int) (hdc0 : 0 ≤ dc) (hdc : dc ≤ 31)
    (hwk0 : 0 ≤ wk) (hwk : wk ≤ 31) (hs0 : 0 ≤ s) (hs : s ≤ 4095) :
    composeId t dc wk s = (t - twepoch) * 4194304 + dc * 131072 + wk * 4096 + s := by
  unfold composeId
  rw [Int.shiftLeft_eq_mul_pow, Int.shiftLeft_eq_mul_pow, Int.shiftLeft_eq_mul_pow]
  norm_num [timestampLeftShift, datacenterIDShift, workerIDShift, sequenceBits,
    workerIDBits, datacenterIDBits]
  rw [int_lor_add_of_lt (t - twepoch) (dc * 131072) 4194304 22 (by norm_num)
    (by positivity) (by nlinarith)]
  rw [show (t - twepoch) * 4194304 + dc * 131072 = ((t - twepoch) * 32 + dc) * 131072 from by ring]
  rw [int_lor_add_of_lt ((t - twepoch) * 32 + dc) (wk * 4096) 131072 17 (by norm_num)
    (by positivity) (by nlinarith)]
  rw [show ((t - twepoch) * 32 + dc) * 131072 + wk * 4096 =
    ((t - twepoch) * 1024 + dc * 32 + wk) * 4096 from by ring]
  rw [int_lor_add_of_lt ((t - twepoch) * 1024 + dc * 32 + wk) s 4096 12 (by norm_num)
    hs0 (by linarith)]

theorem composeId_strict_mono (t1 s1 t2 s2 dc wk : Int)
    (hdc0 : 0 ≤ dc) (hdc : dc ≤ 31) (hwk0 : 0 ≤ wk) (hwk : wk ≤ 31)
    (hs10 : 0 ≤ s1) (hs1 : s1 ≤ 4095) (hs20 : 0 ≤ s2) (hs2 : s2 ≤ 4095)
    (h : t1 < t2 ∨ (t1 = t2 ∧ s1 < s2)) :
    composeId t1 dc wk s1 < composeId t2 dc wk s2 := by
  rw [composeId_eq t1 dc wk s1 hdc0 hdc hwk0 hwk hs10 hs1,
    composeId_eq t2 dc wk s2 hdc0 hdc hwk0 hwk hs20 hs2]
  rcases h with h | ⟨rfl, h⟩
  · have h1 : t1 + 1 ≤ t2 := h
    nlinarith
  · linarith

theorem composeId_ne_of_ne (t s dc1 wk1 dc2 wk2 : Int)
    (hdc10 : 0 ≤ dc1) (hdc1 : dc1 ≤ 31) (hwk10 : 0 ≤ wk1) (hwk1 : wk1 ≤ 31)
    (hdc20 : 0 ≤ dc2) (hdc2 : dc2 ≤ 31) (hwk20 : 0 ≤ wk2) (hwk2 : wk2 ≤ 31)
    (hs0 : 0 ≤ s) (hs : s ≤ 4095)
    (hne : ¬(wk1 = wk2 ∧ dc1 = dc2)) :
    composeId t dc1 wk1 s ≠ composeId t dc2 wk2 s := by
  rw [composeId_eq t dc1 wk1 s hdc10 hdc1 hwk10 hwk1 hs0 hs,
    composeId_eq t dc2 wk2 s hdc20 hdc2 hwk20 hwk2 hs0 hs]
  intro hcontra
  apply hne
  constructor <;> omega

theorem decode_composeId (t dc wk s : Int) (hdc0 : 0 ≤ dc) (hdc : dc ≤ 31)
    (hwk0 : 0 ≤ wk) (hwk : wk ≤ 31) (hs0 : 0 ≤ s) (hs : s ≤ 4095) :
    decodeWorkerID (composeId t dc wk s) = wk ∧
      decodeDatacenterID (composeId t dc wk s) = dc := by
  rw [composeId_eq t dc wk s hdc0 hdc hwk0 hwk hs0 hs]
  unfold decodeWorkerID decodeDatacenterID
  rw [maxWorkerID_eq, maxDatacenterID_eq]
  rw [int_shiftRight_eq_div _ workerIDShift, int_shiftRight_eq_div _ datacenterIDShift]
  rw [show (31 : Int) = (2 : Int) ^ 5 - 1 from by norm_num, int_land_mask, int_land_mask]
  norm_num [workerIDShift, datacenterIDShift, sequenceBits, workerIDBits, twepoch]
  constructor <;> omega

theorem int_land_sequenceMask (s : Int) : Int.land s sequenceMask = s % 4096 := by
  rw [sequenceMask_eq, show (4095 : Int) = (2 : Int) ^ 12 - 1 from by norm_num, int_land_mask]
  norm_num

theorem NewWorker_spec (wk dc : Nat) (w : Worker) (h : NewWorker wk dc = some w) :
    WorkerInv w ∧ w.workerID = wk ∧ w.datacenterID = dc ∧
      w.sequence = 0 ∧ w.lastTimestamp = 0 ∧ wk ≤ 31 ∧ dc ≤ 31 := by
  unfold NewWorker at h
  rw [maxWorkerID_eq, maxDatacenterID_eq] at h
  split_ifs at h with h1 h2
  · simp only [Option.some.injEq] at h
    obtain rfl := h
    unfold WorkerInv
    dsimp only
    refine ⟨⟨Int.natCast_nonneg wk, ?_, Int.natCast_nonneg dc, ?_, by norm_num, by norm_num⟩,
      rfl, rfl, rfl, rfl, ?_, ?_⟩
    · exact_mod_cast not_lt.mp h1
    · exact_mod_cast not_lt.mp h2
    · exact_mod_cast not_lt.mp h1
    · exact_mod_cast not_lt.mp h2

theorem tilNextMillis_spec (clock : Nat → Int) (last : Int) :
    ∀ fuel i t i2, tilNextMillis clock last i fuel = some (t, i2) →
      last < t ∧ i < i2 ∧ t = clock (i2 - 1) ∧ ∀ j, i ≤ j → j + 1 < i2 → clock j ≤ last := by
  intro fuel
  induction fuel with
  | zero => intro i t i2 h; simp [tilNextMillis] at h
  | succ fuel ih =>
    intro i t i2 h
    simp only [tilNextMillis] at h
    by_cases hc : clock i ≤ last
    · rw [if_pos hc] at h
      obtain ⟨h1, h2, h3, h4⟩ := ih (i + 1) t i2 h
      refine ⟨h1, by omega, h3, ?_⟩
      intro j hj hj2
      rcases Nat.eq_or_lt_of_le hj with rfl | hlt
      · exact hc
      · exact h4 j hlt hj2
    · rw [if_neg hc] at h
      simp only [Option.some.injEq, Prod.mk.injEq] at h
      obtain ⟨rfl, rfl⟩ := h.symm
      refine ⟨by omega, by omega, by simp, ?_⟩
      intro j hj hj2
      omega

theorem next_frame (clock : Nat → Int) (fuel : Nat) (w : Worker) (i : Nat)
    (r : Except NextError Int) (w2 : Worker) (i2 : Nat)
    (h : Next clock fuel w i = some (r, w2, i2)) :
    w2.workerID = w.workerID ∧ w2.datacenterID = w.datacenterID := by
  simp only [Next] at h
  split_ifs at h with h1 h2 h3
  · simp only [Option.some.injEq, Prod.mk.injEq] at h
    obtain ⟨-, rfl, -⟩ := h
    exact ⟨rfl, rfl⟩
  · rcases htm : tilNextMillis clock w.lastTimestamp (i + 1) fuel with - | ⟨t2, j2⟩
    · rw [htm] at h; simp at h
    · rw [htm] at h
      simp only [Option.some.injEq, Prod.mk.injEq] at h
      obtain ⟨-, rfl, -⟩ := h
      exact ⟨rfl, rfl⟩
  · simp only [Option.some.injEq, Prod.mk.injEq] at h
    obtain ⟨-, rfl, -⟩ := h
    exact ⟨rfl, rfl⟩
  · simp only [Option.some.injEq, Prod.mk.injEq] at h
    obtain ⟨-, rfl, -⟩ := h
    exact ⟨rfl, rfl⟩

theorem next_ok_spec (clock : Nat → Int) (fuel : Nat) (w : Worker) (i : Nat)
    (id : Int) (w2 : Worker) (i2 : Nat)
    (hInv : WorkerInv w)
    (h : Next clock fuel w i = some (Except.ok id, w2, i2)) :
    WorkerInv w2 ∧ w2.workerID = w.workerID ∧ w2.datacenterID = w.datacenterID ∧
      id = composeId w2.lastTimestamp w2.datacenterID w2.workerID w2.sequence ∧
      (w.lastTimestamp < w2.lastTimestamp ∨
        (w2.lastTimestamp = w.lastTimestamp ∧ w.sequence < w2.sequence)) := by
  obtain ⟨hwk0, hwk, hdc0, hdc, hs0, hs⟩ := hInv
  simp only [Next] at h
  split_ifs at h with h1 h2 h3
  · simp at h
  · rcases htm : tilNextMillis clock w.lastTimestamp (i + 1) fuel with - | ⟨t2, j2⟩
    · rw [htm] at h; simp at h
    · rw [htm] at h
      simp only [Option.some.injEq, Prod.mk.injEq, Except.ok.injEq] at h
      obtain ⟨hid, rfl, -⟩ := h
      have hgt := (tilNextMillis_spec clock w.lastTimestamp fuel (i + 1) t2 j2 htm).1
      refine ⟨⟨hwk0, hwk, hdc0, hdc, ?_, ?_⟩, rfl, rfl, hid.symm, Or.inl hgt⟩ <;>
        simp [h3]
  · simp only [Option.some.injEq, Prod.mk.injEq, Except.ok.injEq] at h
    obtain ⟨hid, rfl, -⟩ := h
    have hmask : Int.land (w.sequence + 1) sequenceMask = (w.sequence + 1) % 4096 :=
      int_land_sequenceMask (w.sequence + 1)
    rw [hmask] at h3 hid ⊢
    refine ⟨⟨hwk0, hwk, hdc0, hdc, by simp; omega, by simp; omega⟩, rfl, rfl, hid.symm,
      Or.inr ⟨h2, ?_⟩⟩
    simp
    omega
  · simp only [Option.some.injEq, Prod.mk.injEq, Except.ok.injEq] at h
    obtain ⟨hid, rfl, -⟩ := h
    refine ⟨⟨hwk0, hwk, hdc0, hdc, by simp, by simp⟩, rfl, rfl, hid.symm,
      Or.inl (by dsimp only; omega)⟩

/-- Ordering between two outputs of `run`: the identifier strictly grows and
the (lastTimestamp, sequence) pair strictly grows lexicographically. -/
def outRel (p q : Int × Worker) : Prop :=
  p.1 < q.1 ∧ (p.2.lastTimestamp < q.2.lastTimestamp ∨
    (p.2.lastTimestamp = q.2.lastTimestamp ∧ p.2.sequence < q.2.sequence))

instance : IsTrans (Int × Worker) outRel := by
  constructor
  intro a b c hab hbc
  obtain ⟨h1, h2⟩ := hab
  obtain ⟨h3, h4⟩ := hbc
  exact ⟨lt_trans h1 h3, by rcases h2 with h2 | ⟨h2, h2s⟩ <;> rcases h4 with h4 | ⟨h4, h4s⟩ <;>
    [left; left; left; right] <;> omega⟩

theorem run_spec (clock : Nat → Int) (fuel : Nat) :
    ∀ n w i out w2 i2, WorkerInv w →
      run clock fuel n w i = some (out, w2, i2) →
      WorkerInv w2 ∧ w2.workerID = w.workerID ∧ w2.datacenterID = w.datacenterID ∧
        List.Chain outRel (composeId w.lastTimestamp w.datacenterID w.workerID w.sequence, w) out ∧
        ∀ p ∈ out, WorkerInv p.2 ∧ p.2.workerID = w.workerID ∧ p.2.datacenterID = w.datacenterID ∧
          p.1 = composeId p.2.lastTimestamp p.2.datacenterID p.2.workerID p.2.sequence := by
  intro n
  induction n with
  | zero =>
    intro w i out w2 i2 hInv h
    simp only [run, Option.some.injEq, Prod.mk.injEq] at h
    obtain ⟨rfl, rfl, rfl⟩ := h
    exact ⟨hInv, rfl, rfl, List.Chain.nil, by simp⟩
  | succ n ih =>
    intro w i out w2 i2 hInv h
    simp only [run] at h
    rcases hN : Next clock fuel w i with - | ⟨r, w1, i1⟩
    · rw [hN] at h; simp at h
    · rw [hN] at h
      rcases r with e | id
      · simp at h
      · dsimp only at h
        rcases hR : run clock fuel n w1 i1 with - | ⟨out1, w3, i3⟩
        · rw [hR] at h; simp at h
        · rw [hR] at h
          simp only [Option.some.injEq, Prod.mk.injEq] at h
          obtain ⟨rfl, rfl, rfl⟩ := h
          obtain ⟨hInv1, hwk1, hdc1, hid, hlex⟩ :=
            next_ok_spec clock fuel w i id w1 i1 hInv hN
          obtain ⟨hInv2, hwk2, hdc2, hchain, hmem⟩ := ih w1 i1 out1 w3 i3 hInv1 hR
          obtain ⟨hwk0, hwk31, hdc0, hdc31, hs0, hs1⟩ := hInv
          obtain ⟨hwk0b, hwk31b, hdc0b, hdc31b, hs0b, hs1b⟩ := hInv1
          have hidlt : composeId w.lastTimestamp w.datacenterID w.workerID w.sequence < id := by
            rw [hid, hwk1, hdc1]
            exact composeId_strict_mono w.lastTimestamp w.sequence w1.lastTimestamp w1.sequence
              w.datacenterID w.workerID hdc0 hdc31 hwk0 hwk31 hs0 hs1 hs0b hs1b (by omega)
          refine ⟨hInv2, hwk2.trans hwk1, hdc2.trans hdc1, ?_, ?_⟩
          · refine List.Chain.cons ⟨hidlt, by dsimp only; omega⟩ ?_
            have heq : (id, w1) =
                (composeId w1.lastTimestamp w1.datacenterID w1.workerID w1.sequence, w1) := by
              rw [hid]
            rw [heq]
            exact hchain
          · intro p hp
            rcases List.mem_cons.mp hp with rfl | hp
            · exact ⟨⟨hwk0b, hwk31b, hdc0b, hdc31b, hs0b, hs1b⟩, hwk1, hdc1, hid⟩
            · obtain ⟨hpa, hpb, hpc, hpd⟩ := hmem p hp
              exact ⟨hpa, hpb.trans hwk1, hpc.trans hdc1, hpd⟩

theorem run_append (clock : Nat → Int) (fuel : Nat) :
    ∀ m n w i out1 w1 i1 out2 w2 i2,
      run clock fuel m w i = some (out1, w1, i1) →
      run clock fuel n w1 i1 = some (out2, w2, i2) →
      run clock fuel (m + n) w i = some (out1 ++ out2, w2, i2) := by
  intro m
  induction m with
  | zero =>
    intro n w i out1 w1 i1 out2 w2 i2 h1 h2
    simp only [run, Option.some.injEq, Prod.mk.injEq] at h1
    obtain ⟨rfl, rfl, rfl⟩ := h1
    simpa using h2
  | succ m ih =>
    intro n w i out1 w1 i1 out2 w2 i2 h1 h2
    simp only [run] at h1
    rcases hN : Next clock fuel w i with - | ⟨r, wa, ia⟩
    · rw [hN] at h1; simp at h1
    · rw [hN] at h1
      rcases r with e | id
      · simp at h1
      · dsimp only at h1
        rcases hR : run clock fuel m wa ia with - | ⟨outa, wb, ib⟩
        · rw [hR] at h1; simp at h1
        · rw [hR] at h1
          simp only [Option.some.injEq, Prod.mk.injEq] at h1
          obtain ⟨rfl, rfl, rfl⟩ := h1
          have hcomb := ih n wa ia outa wb ib out2 w2 i2 hR h2
          have hn : m + 1 + n = (m + n) + 1 := by omega
          rw [hn]
          simp only [run, hN, hcomb]
          simp

theorem run_one (clock : Nat → Int) (fuel : Nat) (w : Worker) (i : Nat)
    (id : Int) (w2 : Worker) (i2 : Nat)
    (h : Next clock fuel w i = some (Except.ok id, w2, i2)) :
    run clock fuel 1 w i = some ([(id, w2)], w2, i2) := by
  simp only [run, h]

theorem run_length (clock : Nat → Int) (fuel : Nat) :
    ∀ n w i out w2 i2, run clock fuel n w i = some (out, w2, i2) → out.length = n := by
  intro n
  induction n with
  | zero =>
    intro w i out w2 i2 h
    simp only [run, Option.some.injEq, Prod.mk.injEq] at h
    obtain ⟨rfl, -, -⟩ := h
    rfl
  | succ n ih =>
    intro w i out w2 i2 h
    simp only [run] at h
    rcases hN : Next clock fuel w i with - | ⟨r, w1, i1⟩
    · rw [hN] at h; simp at h
    · rw [hN] at h
      rcases r with e | id
      · simp at h
      · dsimp only at h
        rcases hR : run clock fuel n w1 i1 with - | ⟨out1, w3, i3⟩
        · rw [hR] at h; simp at h
        · rw [hR] at h
          simp only [Option.some.injEq, Prod.mk.injEq] at h
          obtain ⟨rfl, -, -⟩ := h
          simp [ih w1 i1 out1 w3 i3 hR]

theorem run_const_clock (clock : Nat → Int) (fuel : Nat) (T : Int) (wk dc : Int) :
    ∀ (k : Nat) (s : Int) (i : Nat), 0 ≤ s → s + (k : Int) ≤ 4095 →
      (∀ j, j < k → clock (i + j) = T) →
      ∃ out, run clock fuel k ⟨wk, dc, s, T⟩ i = some (out, ⟨wk, dc, s + (k : Int), T⟩, i + k) ∧
        ∀ p ∈ out, p.2.lastTimestamp = T := by
  intro k
  induction k with
  | zero =>
    intro s i h0 hk hc
    refine ⟨[], ?_, by simp⟩
    simp [run]
  | succ k ih =>
    intro s i h0 hk hc
    have hci : clock i = T := by have := hc 0 (by omega); simpa using this
    have hmask : Int.land (s + 1) sequenceMask = s + 1 := by
      rw [int_land_sequenceMask]
      have hknn : (0 : Int) ≤ (k : Int) := by positivity
      push_cast at hk
      omega
    have hstep : Next clock fuel ⟨wk, dc, s, T⟩ i =
        some (Except.ok (composeId T dc wk (s + 1)), ⟨wk, dc, s + 1, T⟩, i + 1) := by
      simp only [Next]
      rw [hci, if_neg (by omega), if_pos rfl, hmask]
      rw [if_neg (by omega)]
    obtain ⟨out, hrun, hT⟩ := ih (s + 1) (i + 1) (by omega)
      (by push_cast at hk ⊢; omega)
      (fun j hj => by
        have := hc (j + 1) (by omega)
        rw [show i + 1 + j = i + (j + 1) from by omega]
        exact this)
    refine ⟨(composeId T dc wk (s + 1), ⟨wk, dc, s + 1, T⟩) :: out, ?_, ?_⟩
    · push_cast
      rw [show s + ((k : Int) + 1) = s + 1 + (k : Int) from by ring,
        show i + (k + 1) = i + 1 + k from by omega]
      simp only [run, hstep, hrun]
    · intro p hp
      rcases List.mem_cons.mp hp with rfl | hp
      · rfl
      · exact hT p hp

theorem exhaustion_scenario (T : Int) (w : Worker) (fuel : Nat)
    (hInv : WorkerInv w) (hT : w.lastTimestamp < T) (hfuel : 1 ≤ fuel) :
    ∃ out1 pLast w2,
      run (fun j => if j ≤ 4096 then T else T + 1) fuel 4097 w 0 =
        some (out1 ++ [pLast], w2, 4098) ∧
      out1.length = 4096 ∧ (∀ p ∈ out1, p.2.lastTimestamp = T) ∧
      T < pLast.2.lastTimestamp ∧ pLast.2.sequence = 0 := by
  obtain ⟨wkv, dcv, sv, lv⟩ := w
  obtain ⟨hwk0, hwk31, hdc0, hdc31, hs0, hs1⟩ := hInv
  dsimp only at hwk0 hwk31 hdc0 hdc31 hs0 hs1 hT
  obtain ⟨f, rfl⟩ : ∃ f, fuel = f + 1 := ⟨fuel - 1, by omega⟩
  set cl : Nat → Int := fun j => if j ≤ 4096 then T else T + 1 with hcl
  have hclT : ∀ j, j ≤ 4096 → cl j = T := by intro j hj; simp [hcl, hj]
  have hclT1 : ∀ j, 4096 < j → cl j = T + 1 := by
    intro j hj
    simp only [hcl]
    rw [if_neg (by omega)]
  have hstep1 : Next cl (f + 1) ⟨wkv, dcv, sv, lv⟩ 0 =
      some (Except.ok (composeId T dcv wkv 0), ⟨wkv, dcv, 0, T⟩, 1) := by
    simp only [Next]
    rw [hclT 0 (by omega), if_neg (by omega), if_neg (by omega)]
  have hrun1 := run_one cl (f + 1) ⟨wkv, dcv, sv, lv⟩ 0
    (composeId T dcv wkv 0) ⟨wkv, dcv, 0, T⟩ 1 hstep1
  obtain ⟨outMid, hrunMid, hTMid⟩ := run_const_clock cl (f + 1) T wkv dcv 4095 0 1
    (by omega) (by norm_num) (fun j hj => hclT (1 + j) (by omega))
  have hrunMid2 : run cl (f + 1) 4095 ⟨wkv, dcv, 0, T⟩ 1 =
      some (outMid, ⟨wkv, dcv, 4095, T⟩, 4096) := by
    rw [hrunMid]
    norm_num
  have hstepLast : Next cl (f + 1) ⟨wkv, dcv, 4095, T⟩ 4096 =
      some (Except.ok (composeId (T + 1) dcv wkv 0), ⟨wkv, dcv, 0, T + 1⟩, 4098) := by
    simp only [Next]
    rw [hclT 4096 (by omega), if_neg (by omega), if_pos rfl]
    have hm : Int.land ((4095 : Int) + 1) sequenceMask = 0 := by
      rw [int_land_sequenceMask]; norm_num
    rw [hm, if_pos rfl]
    have htil : tilNextMillis cl T 4097 (f + 1) = some (T + 1, 4098) := by
      simp only [tilNextMillis]
      rw [hclT1 4097 (by omega), if_neg (by omega)]
    rw [htil]
  have hrunLast := run_one cl (f + 1) ⟨wkv, dcv, 4095, T⟩ 4096
    (composeId (T + 1) dcv wkv 0) ⟨wkv, dcv, 0, T + 1⟩ 4098 hstepLast
  have hcomb1 := run_append cl (f + 1) 1 4095 ⟨wkv, dcv, sv, lv⟩ 0
    [(composeId T dcv wkv 0, ⟨wkv, dcv, 0, T⟩)] ⟨wkv, dcv, 0, T⟩ 1
    outMid ⟨wkv, dcv, 4095, T⟩ 4096 hrun1 hrunMid2
  have hcomb2 := run_append cl (f + 1) (1 + 4095) 1 ⟨wkv, dcv, sv, lv⟩ 0
    ((composeId T dcv wkv 0, ⟨wkv, dcv, 0, T⟩) :: outMid) ⟨wkv, dcv, 4095, T⟩ 4096
    [(composeId (T + 1) dcv wkv 0, ⟨wkv, dcv, 0, T + 1⟩)] ⟨wkv, dcv, 0, T + 1⟩ 4098
    (by simpa using hcomb1) hrunLast
  have hMidLen : outMid.length = 4095 :=
    run_length cl (f + 1) 4095 ⟨wkv, dcv, 0, T⟩ 1 outMid ⟨wkv, dcv, 4095, T⟩ 4096 hrunMid2
  refine ⟨(composeId T dcv wkv 0, ⟨wkv, dcv, 0, T⟩) :: outMid,
    (composeId (T + 1) dcv wkv 0, ⟨wkv, dcv, 0, T + 1⟩), ⟨wkv, dcv, 0, T + 1⟩, ?_, ?_, ?_, ?_, ?_⟩
  · have : (1 + 4095) + 1 = 4097 := by norm_num
    rw [← this]
    simpa using hcomb2
  · simp [hMidLen]
  · intro p hp
    rcases List.mem_cons.mp hp with rfl | hp
    · rfl
    · exact hTMid p hp
  · dsimp only
    omega
  · rfl

theorem next_ok_composes (clock : Nat → Int) (fuel : Nat) (w : Worker) (i : Nat)
    (id : Int) (w2 : Worker) (i2 : Nat)
    (h : Next clock fuel w i = some (Except.ok id, w2, i2)) :
    id = composeId w2.lastTimestamp w2.datacenterID w2.workerID w2.sequence := by
  simp only [Next] at h
  split_ifs at h with h1 h2 h3
  · simp at h
  · rcases htm : tilNextMillis clock w.lastTimestamp (i + 1) fuel with - | ⟨t2, j2⟩
    · rw [htm] at h; simp at h
    · rw [htm] at h
      simp only [Option.some.injEq, Prod.mk.injEq, Except.ok.injEq] at h
      obtain ⟨hid, rfl, -⟩ := h
      exact hid.symm
  · simp only [Option.some.injEq, Prod.mk.injEq, Except.ok.injEq] at h
    obtain ⟨hid, rfl, -⟩ := h
    exact hid.symm
  · simp only [Option.some.injEq, Prod.mk.injEq, Except.ok.injEq] at h
    obtain ⟨hid, rfl, -⟩ := h
    exact hid.symm

/-- C1: for a single generator with a fixed (workerID, datacenterID) pair,
constructed by NewWorker, if Next is called sequentially N times and each call
returns an identifier (run therefore samples a clock that never reads below the
stored lastTimestamp at any call, since such a reading is the only way a call
fails), then the N returned identifiers are strictly increasing. -/
theorem C1_sequential_ids_strictly_increasing
    (wk dc : Nat) (clock : Nat → Int) (fuel N i : Nat)
    (w0 w2 : Worker) (out : List (Int × Worker)) (i2 : Nat)
    (hw : NewWorker wk dc = some w0)
    (hr : run clock fuel N w0 i = some (out, w2, i2)) :
    List.Pairwise (· < ·) (out.map Prod.fst) := by
  obtain ⟨hInv, -, -, -, -, -, -⟩ := NewWorker_spec wk dc w0 hw
  obtain ⟨-, -, -, hchain, -⟩ := run_spec clock fuel N w0 i out w2 i2 hInv hr
  have hpw := hchain.pairwise
  have hout := (List.pairwise_cons.mp hpw).2
  exact List.pairwise_map.mpr (hout.imp (fun h => h.1))

theorem C1_witness :
    NewWorker 1 2 = some ⟨1, 2, 0, 0⟩ ∧
    run (fun j => 1546272000000 + ((j / 2 : Nat) : Int)) 0 3 ⟨1, 2, 0, 0⟩ 0 =
      some ([(266240, ⟨1, 2, 0, 1546272000000⟩),
             (266241, ⟨1, 2, 1, 1546272000000⟩),
             (4460544, ⟨1, 2, 0, 1546272000001⟩)],
            ⟨1, 2, 0, 1546272000001⟩, 3) ∧
    List.Pairwise (· < ·)
      (([((266240 : Int), (⟨1, 2, 0, 1546272000000⟩ : Worker)),
         (266241, ⟨1, 2, 1, 1546272000000⟩),
         (4460544, ⟨1, 2, 0, 1546272000001⟩)]).map Prod.fst) :=
  ⟨by decide, by decide,
    C1_sequential_ids_strictly_increasing 1 2
      (fun j => 1546272000000 + ((j / 2 : Nat) : Int)) 0 3 0
      ⟨1, 2, 0, 0⟩ ⟨1, 2, 0, 1546272000001⟩
      [((266240 : Int), (⟨1, 2, 0, 1546272000000⟩ : Worker)),
       (266241, ⟨1, 2, 1, 1546272000000⟩),
       (4460544, ⟨1, 2, 0, 1546272000001⟩)] 3 (by decide) (by decide)⟩

/-- C2: every identifier returned by a successful Next call equals
((effectiveMillis - 1546272000000) <<< 22) ||| (datacenterID <<< 17) |||
(workerID <<< 12) ||| sequence, where effectiveMillis and sequence are the
values stored in the worker state by that call. -/
theorem C2_identifier_bit_composition (clock : Nat → Int) (fuel : Nat) (w : Worker) (i : Nat)
    (id : Int) (w2 : Worker) (i2 : Nat)
    (h : Next clock fuel w i = some (Except.ok id, w2, i2)) :
    id = Int.lor (Int.lor (Int.lor ((w2.lastTimestamp - 1546272000000) <<< (22 : Int))
        (w.datacenterID <<< (17 : Int))) (w.workerID <<< (12 : Int))) w2.sequence := by
  obtain ⟨hwk, hdc⟩ := next_frame clock fuel w i (Except.ok id) w2 i2 h
  have hc := next_ok_composes clock fuel w i id w2 i2 h
  rw [← hwk, ← hdc]
  exact hc

theorem C2_witness :
    Next (fun _ => (1546272000100 : Int)) 0 ⟨1, 2, 0, 0⟩ 0 =
      some (Except.ok 419696640, ⟨1, 2, 0, 1546272000100⟩, 1) ∧
    (419696640 : Int) = Int.lor (Int.lor (Int.lor (((1546272000100 : Int) - 1546272000000) <<< (22 : Int))
        ((2 : Int) <<< (17 : Int))) ((1 : Int) <<< (12 : Int))) 0 :=
  ⟨by decide,
    C2_identifier_bit_composition (fun _ => (1546272000100 : Int)) 0 ⟨1, 2, 0, 0⟩ 0
      419696640 ⟨1, 2, 0, 1546272000100⟩ 1 (by decide)⟩

/-- C3: a call of Next whose clock sample is strictly below the stored
lastTimestamp returns exactly the clock-regression error carrying the
magnitude lastTimestamp - sample, with the worker state unchanged; and a call
whose sample is at least lastTimestamp can only return an identifier, never an
error, so clock regression is the only failure of Next. -/
theorem C3_clock_regression_only_failure (clock : Nat → Int) (fuel : Nat) (w : Worker) (i : Nat) :
    (clock i < w.lastTimestamp →
      Next clock fuel w i =
        some (Except.error (NextError.clockMovedBackwards (w.lastTimestamp - clock i)), w, i + 1)) ∧
    (w.lastTimestamp ≤ clock i →
      ∀ r w2 i2, Next clock fuel w i = some (r, w2, i2) → ∃ id, r = Except.ok id) := by
  constructor
  · intro hlt
    simp only [Next]
    rw [if_pos hlt]
  · intro hge r w2 i2 h
    simp only [Next] at h
    rw [if_neg (by omega)] at h
    by_cases h2 : clock i = w.lastTimestamp
    · rw [if_pos h2] at h
      by_cases h3 : Int.land (w.sequence + 1) sequenceMask = 0
      · rw [if_pos h3] at h
        rcases htm : tilNextMillis clock w.lastTimestamp (i + 1) fuel with - | ⟨t2, j2⟩
        · rw [htm] at h; simp at h
        · rw [htm] at h
          simp only [Option.some.injEq, Prod.mk.injEq] at h
          exact ⟨_, h.1.symm⟩
      · rw [if_neg h3] at h
        simp only [Option.some.injEq, Prod.mk.injEq] at h
        exact ⟨_, h.1.symm⟩
    · rw [if_neg h2] at h
      simp only [Option.some.injEq, Prod.mk.injEq] at h
      exact ⟨_, h.1.symm⟩

theorem C3_witness :
    Next (fun _ => (1546272000050 : Int)) 0 ⟨0, 0, 5, 1546272000100⟩ 0 =
      some (Except.error (NextError.clockMovedBackwards 50), ⟨0, 0, 5, 1546272000100⟩, 1) :=
  (C3_clock_regression_only_failure (fun _ => (1546272000050 : Int)) 0
    ⟨0, 0, 5, 1546272000100⟩ 0).1 (by decide)

/-- C4: when the sampled millisecond equals the stored lastTimestamp the
sequence advances by masking with sequenceMask, which is increment modulo
4096; when the masked increment wraps to zero the call obtains its effective
millisecond from tilNextMillis, which skipped only samples not exceeding
lastTimestamp and returned a strictly greater one; over any successful run no
(lastTimestamp, sequence) pair repeats; and from any state strictly before a
millisecond T, 4097 calls whose first 4096 effective milliseconds all equal T
force the 4097th call to observe the strictly greater effective millisecond
T + 1 via the spin. -/
theorem C4_sequence_mask_and_exhaustion :
    (∀ (clock : Nat → Int) (fuel : Nat) (w : Worker) (i : Nat) (id : Int) (w2 : Worker) (i2 : Nat),
      clock i = w.lastTimestamp →
      Next clock fuel w i = some (Except.ok id, w2, i2) →
      w2.sequence = Int.land (w.sequence + 1) sequenceMask ∧
      w2.sequence = (w.sequence + 1) % 4096 ∧
      (w2.sequence ≠ 0 → w2.lastTimestamp = w.lastTimestamp) ∧
      (w2.sequence = 0 → w.lastTimestamp < w2.lastTimestamp ∧
        tilNextMillis clock w.lastTimestamp (i + 1) fuel = some (w2.lastTimestamp, i2) ∧
        ∀ j, i + 1 ≤ j → j + 1 < i2 → clock j ≤ w.lastTimestamp)) ∧
    (∀ (clock : Nat → Int) (fuel n : Nat) (w : Worker) (i : Nat) (out : List (Int × Worker))
        (w2 : Worker) (i2 : Nat), WorkerInv w →
      run clock fuel n w i = some (out, w2, i2) →
      List.Pairwise (fun p q : Int × Worker =>
        ¬(p.2.lastTimestamp = q.2.lastTimestamp ∧ p.2.sequence = q.2.sequence)) out) ∧
    (∀ (T : Int) (w : Worker) (fuel : Nat), WorkerInv w → w.lastTimestamp < T → 1 ≤ fuel →
      ∃ out1 pLast w2,
        run (fun j => if j ≤ 4096 then T else T + 1) fuel 4097 w 0 =
          some (out1 ++ [pLast], w2, 4098) ∧
        out1.length = 4096 ∧ (∀ p ∈ out1, p.2.lastTimestamp = T) ∧
        T < pLast.2.lastTimestamp ∧ pLast.2.sequence = 0) := by
  refine ⟨?_, ?_, ?_⟩
  · intro clock fuel w i id w2 i2 hsame h
    simp only [Next] at h
    rw [if_neg (by omega), if_pos hsame] at h
    by_cases h3 : Int.land (w.sequence + 1) sequenceMask = 0
    · rw [if_pos h3] at h
      rcases htm : tilNextMillis clock w.lastTimestamp (i + 1) fuel with - | ⟨t2, j2⟩
      · rw [htm] at h; simp at h
      · rw [htm] at h
        simp only [Option.some.injEq, Prod.mk.injEq, Except.ok.injEq] at h
        obtain ⟨hid, rfl, rfl⟩ := h
        obtain ⟨hgt, -, -, hskip⟩ :=
          tilNextMillis_spec clock w.lastTimestamp fuel (i + 1) t2 j2 htm
        exact ⟨rfl, int_land_sequenceMask (w.sequence + 1), fun hne => absurd h3 hne,
          fun _ => ⟨hgt, rfl, hskip⟩⟩
    · rw [if_neg h3] at h
      simp only [Option.some.injEq, Prod.mk.injEq, Except.ok.injEq] at h
      obtain ⟨hid, rfl, rfl⟩ := h
      exact ⟨rfl, int_land_sequenceMask (w.sequence + 1), fun _ => hsame,
        fun h0 => absurd h0 h3⟩
  · intro clock fuel n w i out w2 i2 hInv hr
    obtain ⟨-, -, -, hchain, -⟩ := run_spec clock fuel n w i out w2 i2 hInv hr
    have hout := (List.pairwise_cons.mp hchain.pairwise).2
    exact hout.imp (fun h => by have h2 := h.2; omega)
  · intro T w fuel hInv hT hfuel
    exact exhaustion_scenario T w fuel hInv hT hfuel

theorem C4_witness :
    Next (fun _ => (1546272000123 : Int)) 0 ⟨0, 0, 7, 1546272000123⟩ 0 =
      some (Except.ok 515899400, ⟨0, 0, 8, 1546272000123⟩, 1) ∧
    ((⟨0, 0, 8, 1546272000123⟩ : Worker).sequence =
        Int.land ((⟨0, 0, 7, 1546272000123⟩ : Worker).sequence + 1) sequenceMask ∧
      (⟨0, 0, 8, 1546272000123⟩ : Worker).sequence =
        ((⟨0, 0, 7, 1546272000123⟩ : Worker).sequence + 1) % 4096 ∧
      ((⟨0, 0, 8, 1546272000123⟩ : Worker).sequence ≠ 0 →
        (⟨0, 0, 8, 1546272000123⟩ : Worker).lastTimestamp =
          (⟨0, 0, 7, 1546272000123⟩ : Worker).lastTimestamp) ∧
      ((⟨0, 0, 8, 1546272000123⟩ : Worker).sequence = 0 →
        (⟨0, 0, 7, 1546272000123⟩ : Worker).lastTimestamp <
          (⟨0, 0, 8, 1546272000123⟩ : Worker).lastTimestamp ∧
        tilNextMillis (fun _ => (1546272000123 : Int))
            (⟨0, 0, 7, 1546272000123⟩ : Worker).lastTimestamp 1 0 =
          some ((⟨0, 0, 8, 1546272000123⟩ : Worker).lastTimestamp, 1) ∧
        ∀ j, 1 ≤ j → j + 1 < 1 → (fun _ => (1546272000123 : Int)) j ≤
          (⟨0, 0, 7, 1546272000123⟩ : Worker).lastTimestamp)) :=
  ⟨by decide,
    C4_sequence_mask_and_exhaustion.1 (fun _ => (1546272000123 : Int)) 0
      ⟨0, 0, 7, 1546272000123⟩ 0 515899400 ⟨0, 0, 8, 1546272000123⟩ 1 rfl (by decide)⟩

/-- C5: in a successful Next call whose clock sample strictly exceeds the
stored lastTimestamp the sequence is reset to 0, and in every successful call
the identifier is composed from the effective millisecond and sequence that
the call stored into the worker state. -/
theorem C5_sequence_reset_and_store (clock : Nat → Int) (fuel : Nat) (w : Worker) (i : Nat)
    (id : Int) (w2 : Worker) (i2 : Nat)
    (h : Next clock fuel w i = some (Except.ok id, w2, i2)) :
    (w.lastTimestamp < clock i → w2.sequence = 0) ∧
    id = composeId w2.lastTimestamp w2.datacenterID w2.workerID w2.sequence := by
  constructor
  · intro hlt
    simp only [Next] at h
    rw [if_neg (by omega), if_neg (by omega)] at h
    simp only [Option.some.injEq, Prod.mk.injEq, Except.ok.injEq] at h
    obtain ⟨-, rfl, -⟩ := h
    rfl
  · exact next_ok_composes clock fuel w i id w2 i2 h

theorem C5_witness :
    Next (fun _ => (1546272000200 : Int)) 0 ⟨3, 4, 9, 0⟩ 0 =
      some (Except.ok 839397376, ⟨3, 4, 0, 1546272000200⟩, 1) ∧
    ((0 : Int) < 1546272000200 → (⟨3, 4, 0, 1546272000200⟩ : Worker).sequence = 0) ∧
    (839397376 : Int) = composeId 1546272000200 4 3 0 :=
  ⟨by decide,
    C5_sequence_reset_and_store (fun _ => (1546272000200 : Int)) 0 ⟨3, 4, 9, 0⟩ 0
      839397376 ⟨3, 4, 0, 1546272000200⟩ 1 (by decide)⟩

/-- C6: construction succeeds exactly on worker and datacenter ids up to 31,
yielding a worker whose sequence and lastTimestamp are zero, and is rejected
(no worker value is produced) as soon as either argument reaches 32. -/
theorem C6_construction_validation (wk dc : Nat) :
    (wk ≤ 31 ∧ dc ≤ 31 →
      NewWorker wk dc = some ⟨(wk : Int), (dc : Int), 0, 0⟩) ∧
    (32 ≤ wk ∨ 32 ≤ dc → NewWorker wk dc = none) := by
  constructor
  · intro ⟨h1, h2⟩
    unfold NewWorker
    rw [maxWorkerID_eq, maxDatacenterID_eq, if_neg (by omega), if_neg (by omega)]
  · intro h
    unfold NewWorker
    rw [maxWorkerID_eq, maxDatacenterID_eq]
    rcases h with h | h
    · rw [if_pos (by omega)]
    · by_cases hwk : (wk : Int) > 31
      · rw [if_pos hwk]
      · rw [if_neg hwk, if_pos (by omega)]

theorem C6_witness :
    NewWorker 3 5 = some ⟨3, 5, 0, 0⟩ ∧ NewWorker 32 0 = none :=
  ⟨(C6_construction_validation 3 5).1 (by decide),
    (C6_construction_validation 32 0).2 (by decide)⟩

/-- C7: every identifier produced during a run of a generator constructed
with valid ids decodes, through the inverse bit shifts, to exactly the
workerID and datacenterID supplied at construction. -/
theorem C7_decode_recovers_identity (wk dc : Nat) (clock : Nat → Int) (fuel N i : Nat)
    (w0 : Worker) (out : List (Int × Worker)) (w2 : Worker) (i2 : Nat)
    (hw : NewWorker wk dc = some w0)
    (hr : run clock fuel N w0 i = some (out, w2, i2)) :
    ∀ p ∈ out, decodeWorkerID p.1 = wk ∧ decodeDatacenterID p.1 = dc := by
  obtain ⟨hInv, hwkid, hdcid, -, -, -, -⟩ := NewWorker_spec wk dc w0 hw
  obtain ⟨-, -, -, -, hmem⟩ := run_spec clock fuel N w0 i out w2 i2 hInv hr
  intro p hp
  obtain ⟨hpInv, hpwk, hpdc, hpid⟩ := hmem p hp
  obtain ⟨a0, a31, b0, b31, c0, c4095⟩ := hpInv
  rw [hpid]
  have hd := decode_composeId p.2.lastTimestamp p.2.datacenterID p.2.workerID p.2.sequence
    b0 b31 a0 a31 c0 c4095
  exact ⟨hd.1.trans (hpwk.trans hwkid), hd.2.trans (hpdc.trans hdcid)⟩

theorem C7_witness :
    NewWorker 5 6 = some ⟨5, 6, 0, 0⟩ ∧
    run (fun _ => (1546272000050 : Int)) 0 2 ⟨5, 6, 0, 0⟩ 0 =
      some ([(210522112, ⟨5, 6, 0, 1546272000050⟩),
             (210522113, ⟨5, 6, 1, 1546272000050⟩)],
            ⟨5, 6, 1, 1546272000050⟩, 2) ∧
    ∀ p ∈ ([(210522112, (⟨5, 6, 0, 1546272000050⟩ : Worker)),
            (210522113, ⟨5, 6, 1, 1546272000050⟩)]),
      decodeWorkerID p.1 = (5 : Nat) ∧ decodeDatacenterID p.1 = (6 : Nat) :=
  ⟨by decide, by decide,
    C7_decode_recovers_identity 5 6 (fun _ => (1546272000050 : Int)) 0 2 0
      ⟨5, 6, 0, 0⟩ _ ⟨5, 6, 1, 1546272000050⟩ 2 (by decide) (by decide)⟩

/-- C8: two generators constructed with distinct (workerID, datacenterID)
pairs compose numerically distinct identifiers at any common effective
millisecond and common sequence value. -/
theorem C8_distinct_generators_distinct_ids (wk1 dc1 wk2 dc2 : Nat) (w1 w2 : Worker)
    (t s : Int)
    (h1 : NewWorker wk1 dc1 = some w1) (h2 : NewWorker wk2 dc2 = some w2)
    (hne : ¬(wk1 = wk2 ∧ dc1 = dc2)) (hs0 : 0 ≤ s) (hs : s ≤ 4095) :
    composeId t w1.datacenterID w1.workerID s ≠ composeId t w2.datacenterID w2.workerID s := by
  obtain ⟨⟨a0, a31, b0, b31, -, -⟩, e1, e2, -, -, -, -⟩ := NewWorker_spec wk1 dc1 w1 h1
  obtain ⟨⟨c0, c31, d0, d31, -, -⟩, f1, f2, -, -, -, -⟩ := NewWorker_spec wk2 dc2 w2 h2
  apply composeId_ne_of_ne t s w1.datacenterID w1.workerID w2.datacenterID w2.workerID
    b0 b31 a0 a31 d0 d31 c0 c31 hs0 hs
  intro ⟨hwq, hdq⟩
  apply hne
  constructor
  · have hq : (wk1 : Int) = (wk2 : Int) := by rw [← e1, ← f1]; exact hwq
    exact_mod_cast hq
  · have hq : (dc1 : Int) = (dc2 : Int) := by rw [← e2, ← f2]; exact hdq
    exact_mod_cast hq

theorem C8_witness :
    NewWorker 1 2 = some ⟨1, 2, 0, 0⟩ ∧ NewWorker 3 4 = some ⟨3, 4, 0, 0⟩ ∧
    composeId 1546272000999 2 1 7 ≠ composeId 1546272000999 4 3 7 :=
  ⟨by decide, by decide,
    C8_distinct_generators_distinct_ids 1 2 3 4 ⟨1, 2, 0, 0⟩ ⟨3, 4, 0, 0⟩
      1546272000999 7 (by decide) (by decide) (by decide) (by decide) (by decide)⟩

/-- C9: the worker (0, 0) at wall-clock millisecond 1546272000100, one hundred
milliseconds past the epoch constant 1546272000000, with sequence 0, returns
the identifier 100 <<< 22 = 419430400, whose timestamp-delta field decodes to
100 and whose worker, datacenter and sequence fields all decode to 0. -/
theorem C9_concrete_scenario :
    NewWorker 0 0 = some ⟨0, 0, 0, 0⟩ ∧
    Next (fun _ => (1546272000100 : Int)) 0 ⟨0, 0, 0, 0⟩ 0 =
      some (Except.ok 419430400, ⟨0, 0, 0, 1546272000100⟩, 1) ∧
    (419430400 : Int) = (100 : Int) <<< (22 : Int) ∧
    decodeTimestampDelta 419430400 = 100 ∧
    decodeWorkerID 419430400 = 0 ∧
    decodeDatacenterID 419430400 = 0 ∧
    decodeSequence 419430400 = 0 :=
  ⟨by decide, by decide, by decide, by decide, by decide, by decide, by decide⟩

/-- C10: a call of Next never modifies the workerID or datacenterID fields,
whether it returns an identifier or a clock-regression error. -/
theorem C10_identity_fields_frame (clock : Nat → Int) (fuel : Nat) (w : Worker) (i : Nat)
    (r : Except NextError Int) (w2 : Worker) (i2 : Nat)
    (h : Next clock fuel w i = some (r, w2, i2)) :
    w2.workerID = w.workerID ∧ w2.datacenterID = w.datacenterID :=
  next_frame clock fuel w i r w2 i2 h

theorem C10_witness :
    Next (fun _ => (5 : Int)) 0 ⟨1, 2, 3, 10⟩ 0 =
      some (Except.error (NextError.clockMovedBackwards 5), ⟨1, 2, 3, 10⟩, 1) ∧
    (⟨1, 2, 3, 10⟩ : Worker).workerID = (⟨1, 2, 3, 10⟩ : Worker).workerID ∧
    (⟨1, 2, 3, 10⟩ : Worker).datacenterID = (⟨1, 2, 3, 10⟩ : Worker).datacenterID :=
  ⟨by decide,
    C10_identity_fields_frame (fun _ => (5 : Int)) 0 ⟨1, 2, 3, 10⟩ 0
      (Except.error (NextError.clockMovedBackwards 5)) ⟨1, 2, 3, 10⟩ 1 (by decide)⟩

end Snowflake
